import Mathlib

/-!
# Verification of the Pumpkin command-suggestion compiler and connection lifecycle

Shallow embedding of `src/pumpkin/src/command/client_cmd_suggestions.rs` and
`src/pumpkin/src/lib.rs`.  Rust recursion that could diverge on malformed
input is embedded with an explicit fuel parameter returning `Option`; `none`
models nontermination or an out-of-bounds panic, `some` a normal return.
-/

namespace Pumpkin

/-- Requester identity.  Modelled from the spec: `CommandSender` (defined in
`command/mod.rs`, not in `src/`) is polymorphic over
{Player (permission level derived from game state), Console (unconditionally
maximal permission)}. -/
inductive CommandSender where
  | player (permLvl : Nat)
  | console
deriving DecidableEq

/-- Modelled from the spec: an argument consumer (defined outside `src/`)
exposes a client-side parser identity and an optional suggestion-type
override, the two values read by the compiler via
`get_client_side_parser()` and `get_client_side_suggestion_type_override()`. -/
structure ArgumentConsumer where
  client_side_parser_id : Nat
  client_side_suggestion_type_override : Option Nat
deriving DecidableEq

/-- Modelled from the spec: the grammar node variants of `tree.rs` (not in
`src/`): Literal, Argument, ExecuteLeaf and the transparent permission gate
Require, exactly the four variants matched in `nodes_to_proto_node_builders`. -/
inductive NodeType where
  | argument (name : String) (consumer : ArgumentConsumer)
  | literal (string : String)
  | executeLeaf
  | require (predicate : CommandSender → Bool)

/-- Modelled from the spec: one arena node of `tree.rs`, a child-index list
plus a `NodeType`, as read by the compiler (`node.children`,
`node.node_type`). -/
structure Node where
  children : List Nat
  node_type : NodeType

/-- Modelled from the spec: a command's arena (`CommandTree` of `tree.rs`),
a flat node array plus the top-level child-index list, the two fields the
compiler reads (`tree.nodes`, `tree.children`). -/
structure CommandTree where
  nodes : List Node
  children : List Nat

/-- Wire node type tag, mirroring `ProtoNodeType` of the protocol crate:
Root, Literal{name, is_executable},
Argument{name, is_executable, parser, override_suggestion_type}. -/
inductive ProtoNodeType where
  | root
  | literal (name : String) (is_executable : Bool)
  | argument (name : String) (is_executable : Bool) (parser : Nat)
      (override_suggestion_type : Option Nat)
deriving DecidableEq

/-- Wire node: child indices into the flat output array plus a type tag,
mirroring `ProtoNode`. -/
structure ProtoNode where
  children : List Nat
  node_type : ProtoNodeType
deriving DecidableEq

/-- Pending builder node, mirroring `ProtoNodeBuilder` of
`client_cmd_suggestions.rs`. -/
inductive ProtoNodeBuilder where
  | mk (child_nodes : List ProtoNodeBuilder) (node_type : ProtoNodeType)

def ProtoNodeBuilder.child_nodes : ProtoNodeBuilder → List ProtoNodeBuilder
  | .mk c _ => c

def ProtoNodeBuilder.node_type : ProtoNodeBuilder → ProtoNodeType
  | .mk _ t => t

/-- Embedding of `nodes_to_proto_node_builders` (lines 73–127 of
`client_cmd_suggestions.rs`).  The Rust loop walks the child-index list,
OR-accumulating the level's `is_executable` flag and appending each
element's builder nodes in order; per element, `match node.node_type`:
Literal and Argument recurse into their own children and push one builder;
ExecuteLeaf pushes nothing and only raises the current level's flag;
Require evaluates its predicate now and either compiles its children
transparently (splicing them into the current level and propagating their
flag) or drops the whole subtree.  `fuel` decreases on every recursive call;
`none` models nontermination on a cyclic arena or the panic of `nodes[*i]`
on an invalid index (embedded as `nodes[i]?`). -/
def nodes_to_proto_node_builders (cmd_src : CommandSender) (nodes : List Node) :
    Nat → List Nat → Option (Bool × List ProtoNodeBuilder)
  | 0, _ => none
  | _ + 1, [] => some (false, [])
  | fuel + 1, i :: rest =>
    (nodes[i]?).bind fun node =>
      (match node.node_type with
        | .argument name consumer =>
            (nodes_to_proto_node_builders cmd_src nodes fuel node.children).bind
              fun r =>
                some (false,
                  [ProtoNodeBuilder.mk r.2
                    (.argument name r.1 consumer.client_side_parser_id
                      consumer.client_side_suggestion_type_override)])
        | .literal string =>
            (nodes_to_proto_node_builders cmd_src nodes fuel node.children).bind
              fun r =>
                some (false, [ProtoNodeBuilder.mk r.2 (.literal string r.1)])
        | .executeLeaf => some (true, ([] : List ProtoNodeBuilder))
        | .require predicate =>
            if predicate cmd_src then
              (nodes_to_proto_node_builders cmd_src nodes fuel node.children).bind
                fun r => some (r.1, r.2)
            else
              some (false, ([] : List ProtoNodeBuilder))).bind fun hd =>
        (nodes_to_proto_node_builders cmd_src nodes fuel rest).bind fun r =>
          some (hd.1 || r.1, hd.2 ++ r.2)

/-- One element's contribution (the `match node.node_type` of lines 83–123),
named so the cons-step of the compiler can be stated compactly;
`ntpnb_cons` below shows `nodes_to_proto_node_builders` steps through it
definitionally. -/
def headStep (cmd_src : CommandSender) (nodes : List Node) (fuel : Nat)
    (node : Node) : Option (Bool × List ProtoNodeBuilder) :=
  match node.node_type with
  | .argument name consumer =>
      (nodes_to_proto_node_builders cmd_src nodes fuel node.children).bind
        fun r =>
          some (false,
            [ProtoNodeBuilder.mk r.2
              (.argument name r.1 consumer.client_side_parser_id
                consumer.client_side_suggestion_type_override)])
  | .literal string =>
      (nodes_to_proto_node_builders cmd_src nodes fuel node.children).bind
        fun r =>
          some (false, [ProtoNodeBuilder.mk r.2 (.literal string r.1)])
  | .executeLeaf => some (true, ([] : List ProtoNodeBuilder))
  | .require predicate =>
      if predicate cmd_src then
        (nodes_to_proto_node_builders cmd_src nodes fuel node.children).bind
          fun r => some (r.1, r.2)
      else
        some (false, ([] : List ProtoNodeBuilder))

mutual

/-- Embedding of `ProtoNodeBuilder::build` (lines 56–71): children are
materialized first (depth-first), then the node itself is appended at the
current end of the buffer and its position returned. -/
def ProtoNodeBuilder.build : ProtoNodeBuilder → List ProtoNode → Nat × List ProtoNode
  | .mk child_nodes node_type, buffer =>
    let (children, buffer') := ProtoNodeBuilder.buildList child_nodes buffer
    (buffer'.length, buffer' ++ [⟨children, node_type⟩])

/-- The `for node in self.child_nodes` loop of `build`: materialize each
child in order, collecting the returned indices. -/
def ProtoNodeBuilder.buildList : List ProtoNodeBuilder → List ProtoNode → List Nat × List ProtoNode
  | [], buffer => ([], buffer)
  | b :: bs, buffer =>
    let (i, buffer') := ProtoNodeBuilder.build b buffer
    let (is, buffer'') := ProtoNodeBuilder.buildList bs buffer'
    (i :: is, buffer'')

end

/-- Every child index stored in the array points strictly below the node
holding it (the positional scheme of spec §4.2 materialization). -/
def childrenBounded (l : List ProtoNode) : Prop :=
  ∀ (k : Nat) (node : ProtoNode), l[k]? = some node → ∀ c ∈ node.children, c < k

/-- Number of Root-tagged nodes in an output array. -/
def rootCount (l : List ProtoNode) : Nat :=
  (l.filter (fun node => decide (node.node_type = .root))).length

mutual

/-- Number of Root-tagged nodes a builder will emit. -/
def ProtoNodeBuilder.rootCountB : ProtoNodeBuilder → Nat
  | .mk child_nodes node_type =>
    (if node_type = .root then 1 else 0) + ProtoNodeBuilder.rootCountList child_nodes

/-- Number of Root-tagged nodes a builder list will emit. -/
def ProtoNodeBuilder.rootCountList : List ProtoNodeBuilder → Nat
  | [] => 0
  | b :: bs => b.rootCountB + ProtoNodeBuilder.rootCountList bs

end

/-- The name carried by a wire node type, if any. -/
def protoName : ProtoNodeType → Option String
  | .root => none
  | .literal name _ => some name
  | .argument name _ _ _ => some name

/-- Modelled from the spec: the Dispatcher (in `dispatcher.rs`, not in
`src/`) owns a mapping from registered command name to arena whose
enumeration order is a fixed, defined rule (registration order), embedded as
an association list; per the spec `get_tree` may fail with a lookup error
for a registered name, embedded as an `Option CommandTree` entry. -/
structure CommandDispatcher where
  commands : List (String × Option CommandTree)

/-- Modelled from the spec: `get_tree(name) -> Arena | NotFoundError`,
resolving a name through the dispatcher's mapping. -/
def CommandDispatcher.get_tree (d : CommandDispatcher) (key : String) :
    Option CommandTree :=
  (d.commands.find? (fun kv => kv.1 = key)).bind Prod.snd

/-- The `for key in dispatcher.commands.keys()` loop of
`send_c_commands_packet` (lines 19–36): a failed `get_tree` is skipped with
`continue`; otherwise the arena is compiled and wrapped in a top-level
Literal builder named by the command. -/
def first_level_builders (cmd_src : CommandSender) (d : CommandDispatcher)
    (fuel : Nat) : List String → Option (List ProtoNodeBuilder)
  | [] => some []
  | key :: rest =>
    match d.get_tree key with
    | none => first_level_builders cmd_src d fuel rest
    | some tree =>
        (nodes_to_proto_node_builders cmd_src tree.nodes fuel tree.children).bind
          fun r =>
            (first_level_builders cmd_src d fuel rest).bind fun restBuilders =>
              some (ProtoNodeBuilder.mk r.2 (.literal key r.1) :: restBuilders)

/-- Embedding of the pure core of `send_c_commands_packet` (lines 12–48):
build one top-level Literal builder per resolvable command, wrap them under a
single Root builder, flatten into the output array, and return the packet
payload (node array, root index). -/
def send_c_commands_packet (cmd_src : CommandSender) (d : CommandDispatcher)
    (fuel : Nat) : Option (List ProtoNode × Nat) :=
  (first_level_builders cmd_src d fuel (d.commands.map Prod.fst)).bind
    fun first_level =>
      some (((ProtoNodeBuilder.mk first_level ProtoNodeType.root).build []).2,
        ((ProtoNodeBuilder.mk first_level ProtoNodeType.root).build []).1)

/-! ## Connection lifecycle (`lib.rs`, lines 158–214)

The per-connection task reads two atomic flags, `closed` and `make_player`.
Per the spec, `closed` may be set by other tasks at any time, so it is
embedded as a time-indexed observation `closedObs : Nat → Bool` sampled once
per loop check; the promote flag (`make_player`) is set by the
frame-processing logic running on this same task (spec §4.3: "the low-level
frame-reading logic, running on the same task, decide[s] ... when ... to
promote"), so it is task-local state here, raised when a processed packet
requests promotion (`promotes t`).  `polls t` is the result of
`client.poll()` at step `t`.  Fuel bounds the number of loop iterations;
`none` models a task that never observes its exit condition. -/

/-- Observable actions of one connection task, in program order. -/
inductive Ev where
  | processClient        -- client.process_packets
  | addPlayer            -- server.add_player
  | spawnPlayer          -- world.spawn_player
  | processPlayer        -- player.process_packets
  | removePlayerWorld    -- player.remove()
  | removePlayerServer   -- server.remove_player()
deriving DecidableEq

/-- The pre-authentication loop (lines 180–189):
`while !closed && !make_player { if poll { process_packets } }`.
Returns the emitted events, the exit time, and the value of `make_player`
at exit.  Processing a packet at step `t` sets `make_player` when
`promotes t` holds. -/
def clientLoop (closedObs polls promotes : Nat → Bool) :
    Nat → Nat → Bool → Option (List Ev × Nat × Bool)
  | 0, _, _ => none
  | fuel + 1, t, mp =>
    if closedObs t || mp then some ([], t, mp)
    else if polls t then
      (clientLoop closedObs polls promotes fuel (t + 1) (mp || promotes t)).map
        (fun r => (Ev.processClient :: r.1, r.2))
    else
      (clientLoop closedObs polls promotes fuel (t + 1) mp).map
        (fun r => (r.1, r.2))

/-- The in-game loop (lines 200–209):
`while !player.client.closed { if poll { player.process_packets } }`. -/
def playerLoop (closedObs polls : Nat → Bool) :
    Nat → Nat → Option (List Ev × Nat)
  | 0, _ => none
  | fuel + 1, t =>
    if closedObs t then some ([], t)
    else if polls t then
      (playerLoop closedObs polls fuel (t + 1)).map
        (fun r => (Ev.processPlayer :: r.1, r.2))
    else
      (playerLoop closedObs polls fuel (t + 1)).map (fun r => (r.1, r.2))

/-- The whole spawned task body (lines 179–214): client loop; then the
`if client.make_player` re-read (a fresh load of the flag — task-local here,
so it returns the loop's exit value); on promotion, `add_player`,
`spawn_player`, the player loop, then `player.remove()` and
`server.remove_player()`. -/
def connectionTask (closedObs polls promotes : Nat → Bool) (fuel : Nat) :
    Option (List Ev) :=
  (clientLoop closedObs polls promotes fuel 0 false).bind fun r =>
    if r.2.2 then
      (playerLoop closedObs polls fuel (r.2.1 + 1)).bind fun r2 =>
        some (r.1 ++ [Ev.addPlayer, Ev.spawnPlayer] ++ r2.1
          ++ [Ev.removePlayerWorld, Ev.removePlayerServer])
    else
      some r.1

/-! ## Signal handling (`lib.rs`, lines 218–254, unix variant) -/

/-- An OS termination signal. -/
inductive Sig where
  | interrupt
  | hangup
  | terminate
deriving DecidableEq

/-- `signal(kind)?.recv().await` against a finite delivery trace: resolves at
the first delivery of `kind`, returning the rest of the trace; `none` means
the await never resolves (a live tokio signal stream never closes, so the
`recv()` future only completes when the signal actually arrives). -/
def recvSignal (kind : Sig) : List Sig → Option (List Sig)
  | [] => none
  | s :: rest => if s = kind then some rest else recvSignal kind rest

/-- Embedding of the unix `setup_sighandler` (lines 239–254) composed with
`handle_interrupt` (lines 218–226): the task awaits an interrupt first; only
if that await resolves does `handle_interrupt` run, which logs and calls
`std::process::exit(0)`.  Result: `some 0` = process exited with status 0;
`none` = the task is still blocked awaiting and never exits the process.
The hangup and terminate awaits on lines 245–251 are reachable only if the
interrupt `recv()` returns `None` from a closed stream, which a live signal
stream never does — with an interrupt delivered the process has already
exited on line 225 before they run. -/
def setup_sighandler (sigs : List Sig) : Option Nat :=
  match recvSignal .interrupt sigs with
  | some _ => some 0
  | none => none

/-! ## Console task (`lib.rs`, lines 256–276) -/

/-- One dispatched command: the requester identity passed to
`handle_command` and the raw line. -/
structure Dispatch where
  sender : CommandSender
  line : String
deriving DecidableEq

/-- Embedding of the `setup_console` loop body over a trace of successive
`read_line` results: each non-empty buffer is forwarded as exactly one
`handle_command(CommandSender::Console, line)` dispatch, an empty buffer
dispatches nothing. -/
def setup_console (reads : List String) : List Dispatch :=
  reads.flatMap (fun out =>
    if out.isEmpty then [] else [⟨CommandSender.console, out⟩])

/-! ## Connection identifiers (`lib.rs`, lines 158–176) -/

/-- `master_client_id = master_client_id.wrapping_add(1)` on a `u16`:
one accept-loop step returns the id handed to the new connection and the
next counter value. -/
def next_client_id (master_client_id : Nat) : Nat × Nat :=
  (master_client_id, (master_client_id + 1) % 2 ^ 16)

/-- Counter value after `n` accepted connections, starting from
`master_client_id = 0`. -/
def master_client_id_after : Nat → Nat
  | 0 => 0
  | n + 1 => (next_client_id (master_client_id_after n)).2

/-- The identifier assigned to the `n`-th accepted connection (0-based). -/
def client_id (n : Nat) : Nat := (next_client_id (master_client_id_after n)).1

/-- Spec-side characterisation of executability for C2, written from the
claim's words: a level (child-index list) is executable iff it has a direct
ExecuteLeaf child, or a Require child whose predicate passes and whose own
level is executable. -/
inductive ExecutableFrom (cmd_src : CommandSender) (nodes : List Node) :
    List Nat → Prop where
  | leaf {children : List Nat} {i : Nat} {node : Node} :
      i ∈ children → nodes[i]? = some node →
      node.node_type = .executeLeaf → ExecutableFrom cmd_src nodes children
  | gate {children : List Nat} {i : Nat} {node : Node}
      {predicate : CommandSender → Bool} :
      i ∈ children → nodes[i]? = some node →
      node.node_type = .require predicate → predicate cmd_src = true →
      ExecutableFrom cmd_src nodes node.children →
      ExecutableFrom cmd_src nodes children

/-! ### Concrete fixtures (spec §8 scenarios) used by the witnesses -/

/-- A flat command: a single ExecuteLeaf under the implicit top literal. -/
def flatTree : CommandTree := ⟨[⟨[], .executeLeaf⟩], [0]⟩

/-- Scenario 1's arena: Literal("gamemode") → Argument("mode") → ExecuteLeaf,
here the part below the top-level literal. -/
def gamemodeTree : CommandTree :=
  ⟨[⟨[1], .argument "mode" ⟨5, none⟩⟩, ⟨[], .executeLeaf⟩], [0]⟩

/-- Scenario 2's arena: the Argument is wrapped in a Require whose predicate
is constantly false. -/
def gatedNodes : List Node :=
  [⟨[1], .require (fun _ => false)⟩,
   ⟨[2], .argument "mode" ⟨5, none⟩⟩,
   ⟨[], .executeLeaf⟩]

/-- Scenario 3's dispatcher: two flat commands "help" and "stop". -/
def helpStopDispatcher : CommandDispatcher :=
  ⟨[("help", some flatTree), ("stop", some flatTree)]⟩

/-- Scenario 5's dispatcher: a registered name whose tree lookup fails. -/
def lossyDispatcher : CommandDispatcher :=
  ⟨[("help", some flatTree), ("nonexistent", none), ("stop", some flatTree)]⟩

/-- One ExecuteLeaf node, for executability witnesses. -/
def leafNodes : List Node := [⟨[], .executeLeaf⟩]

/-- Scenario 3's expected output array: two Literals then the Root. -/
def helpStopPacket : List ProtoNode :=
  [⟨[], .literal "help" true⟩, ⟨[], .literal "stop" true⟩, ⟨[0, 1], .root⟩]

/-! ## Theorems -/

theorem ntpnb_zero (cmd_src : CommandSender) (nodes : List Node) (ch : List Nat) :
    nodes_to_proto_node_builders cmd_src nodes 0 ch = none := by
  simp [nodes_to_proto_node_builders]

theorem ntpnb_nil (cmd_src : CommandSender) (nodes : List Node) (fuel : Nat) :
    nodes_to_proto_node_builders cmd_src nodes (fuel + 1) [] = some (false, []) := by
  simp [nodes_to_proto_node_builders]

theorem ntpnb_cons (cmd_src : CommandSender) (nodes : List Node) (fuel : Nat)
    (i : Nat) (rest : List Nat) :
    nodes_to_proto_node_builders cmd_src nodes (fuel + 1) (i :: rest) =
      (nodes[i]?).bind (fun node =>
        (headStep cmd_src nodes fuel node).bind (fun hd =>
          (nodes_to_proto_node_builders cmd_src nodes fuel rest).bind (fun r =>
            some (hd.1 || r.1, hd.2 ++ r.2)))) := by
  rw [nodes_to_proto_node_builders]; rfl

theorem headStep_argument (cmd_src : CommandSender) (nodes : List Node)
    (fuel : Nat) (node : Node) (name : String) (consumer : ArgumentConsumer)
    (htype : node.node_type = .argument name consumer) :
    headStep cmd_src nodes fuel node =
      (nodes_to_proto_node_builders cmd_src nodes fuel node.children).bind
        (fun r => some (false,
          [ProtoNodeBuilder.mk r.2
            (.argument name r.1 consumer.client_side_parser_id
              consumer.client_side_suggestion_type_override)])) := by
  rw [headStep, htype]

theorem headStep_literal (cmd_src : CommandSender) (nodes : List Node)
    (fuel : Nat) (node : Node) (string : String)
    (htype : node.node_type = .literal string) :
    headStep cmd_src nodes fuel node =
      (nodes_to_proto_node_builders cmd_src nodes fuel node.children).bind
        (fun r => some (false, [ProtoNodeBuilder.mk r.2 (.literal string r.1)])) := by
  rw [headStep, htype]

theorem headStep_executeLeaf (cmd_src : CommandSender) (nodes : List Node)
    (fuel : Nat) (node : Node) (htype : node.node_type = .executeLeaf) :
    headStep cmd_src nodes fuel node = some (true, []) := by
  rw [headStep, htype]

theorem headStep_require_true (cmd_src : CommandSender) (nodes : List Node)
    (fuel : Nat) (node : Node) (predicate : CommandSender → Bool)
    (htype : node.node_type = .require predicate)
    (hp : predicate cmd_src = true) :
    headStep cmd_src nodes fuel node =
      (nodes_to_proto_node_builders cmd_src nodes fuel node.children).bind
        (fun r => some (r.1, r.2)) := by
  rw [headStep, htype]
  simp [hp]

theorem headStep_require_false (cmd_src : CommandSender) (nodes : List Node)
    (fuel : Nat) (node : Node) (predicate : CommandSender → Bool)
    (htype : node.node_type = .require predicate)
    (hp : predicate cmd_src = false) :
    headStep cmd_src nodes fuel node = some (false, []) := by
  rw [headStep, htype]
  simp [hp]

/-- A successful `headStep` step keeps its value with more fuel. -/
theorem headStep_mono_of (cmd_src : CommandSender) (nodes : List Node)
    (fuel : Nat) (node : Node) (hd : Bool × List ProtoNodeBuilder)
    (hmono : ∀ ch r, nodes_to_proto_node_builders cmd_src nodes fuel ch = some r →
      nodes_to_proto_node_builders cmd_src nodes (fuel + 1) ch = some r)
    (hhd : headStep cmd_src nodes fuel node = some hd) :
    headStep cmd_src nodes (fuel + 1) node = some hd := by
  cases htype : node.node_type with
  | argument name consumer =>
    rw [headStep_argument cmd_src nodes fuel node name consumer htype] at hhd
    rw [headStep_argument cmd_src nodes (fuel + 1) node name consumer htype]
    simp only [Option.bind_eq_some] at hhd ⊢
    obtain ⟨p, hp, hpure⟩ := hhd
    exact ⟨p, hmono node.children p hp, hpure⟩
  | literal string =>
    rw [headStep_literal cmd_src nodes fuel node string htype] at hhd
    rw [headStep_literal cmd_src nodes (fuel + 1) node string htype]
    simp only [Option.bind_eq_some] at hhd ⊢
    obtain ⟨p, hp, hpure⟩ := hhd
    exact ⟨p, hmono node.children p hp, hpure⟩
  | executeLeaf =>
    rw [headStep_executeLeaf cmd_src nodes fuel node htype] at hhd
    rw [headStep_executeLeaf cmd_src nodes (fuel + 1) node htype]
    exact hhd
  | require predicate =>
    by_cases hp : predicate cmd_src
    · rw [headStep_require_true cmd_src nodes fuel node predicate htype hp] at hhd
      rw [headStep_require_true cmd_src nodes (fuel + 1) node predicate htype hp]
      simp only [Option.bind_eq_some] at hhd ⊢
      obtain ⟨p, hpc, hpure⟩ := hhd
      exact ⟨p, hmono node.children p hpc, hpure⟩
    · have hp' : predicate cmd_src = false := by simpa using hp
      rw [headStep_require_false cmd_src nodes fuel node predicate htype hp'] at hhd
      rw [headStep_require_false cmd_src nodes (fuel + 1) node predicate htype hp']
      exact hhd

/-- Fuel monotonicity: a run that returns keeps returning the same value
with more fuel. -/
theorem ntpnb_mono (cmd_src : CommandSender) (nodes : List Node) :
    ∀ fuel ch r, nodes_to_proto_node_builders cmd_src nodes fuel ch = some r →
      nodes_to_proto_node_builders cmd_src nodes (fuel + 1) ch = some r := by
  intro fuel
  induction fuel with
  | zero => intro ch r h; rw [ntpnb_zero] at h; exact absurd h (by simp)
  | succ fuel ih =>
    intro ch r h
    cases ch with
    | nil => rw [ntpnb_nil] at h ⊢; exact h
    | cons i rest =>
      rw [ntpnb_cons] at h
      rw [ntpnb_cons]
      simp only [Option.bind_eq_some] at h ⊢
      obtain ⟨node, hnode, hd, hhd, rr, hrest, heq⟩ := h
      exact ⟨node, hnode, hd, headStep_mono_of cmd_src nodes fuel node hd ih hhd,
        rr, ih rest rr hrest, heq⟩

/-- Fuel monotonicity, `≤` form. -/
theorem ntpnb_mono_le (cmd_src : CommandSender) (nodes : List Node)
    {fuel fuel' : Nat} (hle : fuel ≤ fuel') {ch : List Nat}
    {r : Bool × List ProtoNodeBuilder}
    (h : nodes_to_proto_node_builders cmd_src nodes fuel ch = some r) :
    nodes_to_proto_node_builders cmd_src nodes fuel' ch = some r := by
  induction hle with
  | refl => exact h
  | step _ ih => exact ntpnb_mono cmd_src nodes _ ch r ih

/-- `ExecutableFrom` is monotone under adding children to the level. -/
theorem ExecutableFrom.weaken (cmd_src : CommandSender) (nodes : List Node)
    {ch ch' : List Nat} (hsub : ∀ j ∈ ch, j ∈ ch')
    (h : ExecutableFrom cmd_src nodes ch) :
    ExecutableFrom cmd_src nodes ch' := by
  cases h with
  | leaf hmem hnode htype => exact .leaf (hsub _ hmem) hnode htype
  | gate hmem hnode htype hp hsub' => exact .gate (hsub _ hmem) hnode htype hp hsub'

/-- The compiled `is_executable` flag agrees with the spec-side
characterisation whenever compilation returns. -/
theorem ntpnb_exec_iff (cmd_src : CommandSender) (nodes : List Node) :
    ∀ fuel ch ex bs,
      nodes_to_proto_node_builders cmd_src nodes fuel ch = some (ex, bs) →
      (ex = true ↔ ExecutableFrom cmd_src nodes ch) := by
  intro fuel
  induction fuel with
  | zero => intro ch ex bs h; rw [ntpnb_zero] at h; exact absurd h (by simp)
  | succ fuel ih =>
    intro ch ex bs h
    cases ch with
    | nil =>
      rw [ntpnb_nil] at h
      injection h with h
      injection h with h1 h2
      constructor
      · intro hex
        rw [← h1] at hex
        exact absurd hex (by simp)
      · intro hfrom
        cases hfrom with
        | leaf hmem _ _ => exact absurd hmem (by simp)
        | gate hmem _ _ _ _ => exact absurd hmem (by simp)
    | cons i rest =>
      rw [ntpnb_cons] at h
      simp only [Option.bind_eq_some] at h
      obtain ⟨node, hnode, hd, hhd, rr, hrest, heq⟩ := h
      injection heq with heq
      injection heq with heq1 heq2
      have hex : ex = (hd.1 || rr.1) := heq1.symm
      have hrest_iff := ih rest rr.1 rr.2 (by rw [← hrest])
      constructor
      · intro hextrue
        rw [hextrue] at hex
        rcases Bool.or_eq_true_iff.mp hex.symm with hhd1 | hrr1
        · -- the head element contributed the flag
          cases htype : node.node_type with
          | argument name consumer =>
            rw [headStep_argument cmd_src nodes fuel node name consumer htype] at hhd
            simp only [Option.bind_eq_some] at hhd
            obtain ⟨p, _, hpure⟩ := hhd
            injection hpure with hpure
            rw [← hpure] at hhd1
            exact absurd hhd1 (by simp)
          | literal string =>
            rw [headStep_literal cmd_src nodes fuel node string htype] at hhd
            simp only [Option.bind_eq_some] at hhd
            obtain ⟨p, _, hpure⟩ := hhd
            injection hpure with hpure
            rw [← hpure] at hhd1
            exact absurd hhd1 (by simp)
          | executeLeaf =>
            exact .leaf (List.mem_cons_self i rest) hnode htype
          | require predicate =>
            by_cases hp : predicate cmd_src
            · rw [headStep_require_true cmd_src nodes fuel node predicate htype hp] at hhd
              simp only [Option.bind_eq_some] at hhd
              obtain ⟨p, hpc, hpure⟩ := hhd
              injection hpure with hpure
              rw [← hpure] at hhd1
              have hpexec := (ih node.children p.1 p.2 (by rw [← hpc])).mp hhd1
              exact .gate (List.mem_cons_self i rest) hnode htype hp hpexec
            · have hp' : predicate cmd_src = false := by simpa using hp
              rw [headStep_require_false cmd_src nodes fuel node predicate htype hp'] at hhd
              injection hhd with hhd
              rw [← hhd] at hhd1
              exact absurd hhd1 (by simp)
        · exact ExecutableFrom.weaken cmd_src nodes
            (fun j hj => List.mem_cons_of_mem i hj) (hrest_iff.mp hrr1)
      · intro hfrom
        rw [hex]
        cases hfrom with
        | leaf hmem hnode' htype' =>
          rename_i i' node'
          rcases List.mem_cons.mp hmem with hi | hi
          · subst hi
            rw [hnode] at hnode'
            injection hnode' with hnode'
            subst hnode'
            rw [headStep_executeLeaf cmd_src nodes fuel node htype'] at hhd
            injection hhd with hhd
            rw [← hhd]
            simp
          · have : rr.1 = true := hrest_iff.mpr (.leaf hi hnode' htype')
            simp [this]
        | gate hmem hnode' htype' hp hchild =>
          rename_i i' node' predicate
          rcases List.mem_cons.mp hmem with hi | hi
          · subst hi
            rw [hnode] at hnode'
            injection hnode' with hnode'
            subst hnode'
            rw [headStep_require_true cmd_src nodes fuel node predicate htype' hp] at hhd
            simp only [Option.bind_eq_some] at hhd
            obtain ⟨p, hpc, hpure⟩ := hhd
            have : p.1 = true :=
              (ih node.children p.1 p.2 (by rw [← hpc])).mpr hchild
            injection hpure with hpure
            rw [← hpure]
            simp [this]
          · have : rr.1 = true :=
              hrest_iff.mpr (.gate hi hnode' htype' hp hchild)
            simp [this]

/-- C1: a Require child whose predicate evaluates false on the requester
contributes nothing — the level compiles to exactly what it would be had the
gated child index not been there at all, so compilation of the gated subtree
is skipped entirely and no node of it or of its descendants reaches the wire
structure. -/
theorem require_false_skips_subtree (cmd_src : CommandSender)
    (nodes : List Node) (i : Nat) (node : Node)
    (predicate : CommandSender → Bool)
    (hnode : nodes[i]? = some node)
    (htype : node.node_type = .require predicate)
    (hp : predicate cmd_src = false) :
    ∀ pre fuel post r,
      nodes_to_proto_node_builders cmd_src nodes fuel (pre ++ i :: post) = some r →
      nodes_to_proto_node_builders cmd_src nodes fuel (pre ++ post) = some r := by
  intro pre
  induction pre with
  | nil =>
    intro fuel post r h
    cases fuel with
    | zero => rw [ntpnb_zero] at h; exact absurd h (by simp)
    | succ fuel =>
      rw [List.nil_append] at h
      rw [ntpnb_cons] at h
      simp only [Option.bind_eq_some] at h
      obtain ⟨node', hnode', hd, hhd, rr, hrest, heq⟩ := h
      rw [hnode] at hnode'
      injection hnode' with hnode'
      subst hnode'
      rw [headStep_require_false cmd_src nodes fuel node predicate htype hp] at hhd
      injection hhd with hhd
      subst hhd
      simp only [Bool.false_or, List.nil_append] at heq
      rw [List.nil_append]
      rw [← heq]
      exact ntpnb_mono cmd_src nodes fuel post rr hrest
  | cons x pre ih =>
    intro fuel post r h
    cases fuel with
    | zero => rw [ntpnb_zero] at h; exact absurd h (by simp)
    | succ fuel =>
      rw [List.cons_append] at h
      rw [ntpnb_cons] at h
      rw [List.cons_append, ntpnb_cons]
      simp only [Option.bind_eq_some] at h ⊢
      obtain ⟨node', hnode', hd, hhd, rr, hrest, heq⟩ := h
      exact ⟨node', hnode', hd, hhd, rr, ih fuel post rr hrest, heq⟩

/-! ### Materialization (`ProtoNodeBuilder::build`) lemmas -/

theorem build_eq (cs : List ProtoNodeBuilder) (t : ProtoNodeType)
    (buffer : List ProtoNode) :
    (ProtoNodeBuilder.mk cs t).build buffer =
      ((ProtoNodeBuilder.buildList cs buffer).2.length,
        (ProtoNodeBuilder.buildList cs buffer).2
          ++ [⟨(ProtoNodeBuilder.buildList cs buffer).1, t⟩]) := rfl

theorem buildList_nil (buffer : List ProtoNode) :
    ProtoNodeBuilder.buildList [] buffer = ([], buffer) := rfl

theorem buildList_cons (b : ProtoNodeBuilder) (bs : List ProtoNodeBuilder)
    (buffer : List ProtoNode) :
    ProtoNodeBuilder.buildList (b :: bs) buffer =
      ((b.build buffer).1 :: (ProtoNodeBuilder.buildList bs (b.build buffer).2).1,
        (ProtoNodeBuilder.buildList bs (b.build buffer).2).2) := rfl

mutual

/-- `build` only appends: the incoming buffer is a prefix of the result. -/
theorem build_ext (b : ProtoNodeBuilder) (buffer : List ProtoNode) :
    ∃ ext, (b.build buffer).2 = buffer ++ ext := by
  obtain ⟨cs, t⟩ := b
  obtain ⟨ext, hext⟩ := buildList_ext cs buffer
  exact ⟨ext ++ [⟨(ProtoNodeBuilder.buildList cs buffer).1, t⟩],
    by rw [build_eq, hext, List.append_assoc]⟩

/-- `buildList` only appends. -/
theorem buildList_ext (bs : List ProtoNodeBuilder) (buffer : List ProtoNode) :
    ∃ ext, (ProtoNodeBuilder.buildList bs buffer).2 = buffer ++ ext := by
  cases bs with
  | nil => exact ⟨[], by rw [buildList_nil]; simp⟩
  | cons b bs =>
    obtain ⟨e1, he1⟩ := build_ext b buffer
    obtain ⟨e2, he2⟩ := buildList_ext bs (b.build buffer).2
    exact ⟨e1 ++ e2, by rw [buildList_cons, he2, he1, List.append_assoc]⟩

end

/-- The index `build` returns points at the node it just appended, which is
the final element of the returned buffer and carries the builder's type. -/
theorem build_index (b : ProtoNodeBuilder) (buffer : List ProtoNode) :
    (b.build buffer).1 + 1 = (b.build buffer).2.length ∧
    buffer.length ≤ (b.build buffer).1 ∧
    ((b.build buffer).2)[(b.build buffer).1]? =
      some ⟨(ProtoNodeBuilder.buildList b.child_nodes buffer).1, b.node_type⟩ := by
  obtain ⟨cs, t⟩ := b
  obtain ⟨ext, hext⟩ := buildList_ext cs buffer
  rw [build_eq]
  refine ⟨by simp, ?_, ?_⟩
  · simp only [hext, List.length_append]
    omega
  · exact List.getElem?_concat_length _ _

/-- Every index `buildList` returns is at least the incoming buffer length
and within the returned buffer. -/
theorem buildList_indices (bs : List ProtoNodeBuilder) (buffer : List ProtoNode) :
    ∀ j ∈ (ProtoNodeBuilder.buildList bs buffer).1,
      buffer.length ≤ j ∧ j < (ProtoNodeBuilder.buildList bs buffer).2.length := by
  induction bs generalizing buffer with
  | nil => intro j hj; rw [buildList_nil] at hj; exact absurd hj (by simp)
  | cons b bs ih =>
    intro j hj
    rw [buildList_cons] at hj ⊢
    obtain ⟨hb1, hb2, -⟩ := build_index b buffer
    obtain ⟨ext, hext⟩ := buildList_ext bs (b.build buffer).2
    rcases List.mem_cons.mp hj with hj | hj
    · subst hj
      refine ⟨hb2, ?_⟩
      simp only [hext, List.length_append]
      omega
    · obtain ⟨h1, h2⟩ := ih (b.build buffer).2 j hj
      obtain ⟨e1, he1⟩ := build_ext b buffer
      refine ⟨?_, h2⟩
      rw [he1] at h1
      simp only [List.length_append] at h1
      omega

/-- Appending a node whose children all point below the current end
preserves `childrenBounded`. -/
theorem childrenBounded_append (l : List ProtoNode) (cs : List Nat)
    (t : ProtoNodeType) (hb : childrenBounded l)
    (hcs : ∀ c ∈ cs, c < l.length) :
    childrenBounded (l ++ [⟨cs, t⟩]) := by
  unfold childrenBounded
  intro k node hk c hc
  rcases Nat.lt_trichotomy k l.length with hlt | heq | hgt
  · rw [List.getElem?_append_left hlt] at hk
    exact hb k node hk c hc
  · subst heq
    rw [List.getElem?_concat_length] at hk
    injection hk with hk
    subst hk
    exact hcs c hc
  · rw [List.getElem?_eq_none (by simp; omega)] at hk
    exact absurd hk (by simp)

mutual

/-- `build` preserves the strictly-descending child-index invariant. -/
theorem build_bounded (b : ProtoNodeBuilder) (buffer : List ProtoNode)
    (hb : childrenBounded buffer) : childrenBounded (b.build buffer).2 := by
  obtain ⟨cs, t⟩ := b
  rw [build_eq]
  exact childrenBounded_append _ _ _ (buildList_bounded cs buffer hb)
    (fun c hc => (buildList_indices cs buffer c hc).2)

/-- `buildList` preserves the strictly-descending child-index invariant. -/
theorem buildList_bounded (bs : List ProtoNodeBuilder) (buffer : List ProtoNode)
    (hb : childrenBounded buffer) :
    childrenBounded (ProtoNodeBuilder.buildList bs buffer).2 := by
  cases bs with
  | nil => exact hb
  | cons b bs =>
    rw [buildList_cons]
    exact buildList_bounded bs (b.build buffer).2 (build_bounded b buffer hb)

end

mutual

/-- `build` appends exactly `rootCountB` Root-tagged nodes. -/
theorem build_rootCount (b : ProtoNodeBuilder) (buffer : List ProtoNode) :
    rootCount (b.build buffer).2 = rootCount buffer + b.rootCountB := by
  obtain ⟨cs, t⟩ := b
  rw [build_eq, ProtoNodeBuilder.rootCountB]
  have hcs := buildList_rootCount cs buffer
  by_cases ht : t = ProtoNodeType.root <;>
    simp [rootCount, List.filter_append, ht] at hcs ⊢ <;> omega

/-- `buildList` appends exactly `rootCountList` Root-tagged nodes. -/
theorem buildList_rootCount (bs : List ProtoNodeBuilder) (buffer : List ProtoNode) :
    rootCount (ProtoNodeBuilder.buildList bs buffer).2 =
      rootCount buffer + ProtoNodeBuilder.rootCountList bs := by
  cases bs with
  | nil => simp [buildList_nil, ProtoNodeBuilder.rootCountList]
  | cons b bs =>
    rw [buildList_cons, ProtoNodeBuilder.rootCountList,
      buildList_rootCount bs (b.build buffer).2, build_rootCount b buffer]
    omega

end

/-- The indices `buildList` returns resolve, in the returned buffer, to
nodes carrying exactly the builders' type tags, in order. -/
theorem buildList_types (bs : List ProtoNodeBuilder) (buffer : List ProtoNode) :
    ((ProtoNodeBuilder.buildList bs buffer).1).map
        (fun j => ((ProtoNodeBuilder.buildList bs buffer).2)[j]?.map
          ProtoNode.node_type)
      = bs.map (fun b => some b.node_type) := by
  induction bs generalizing buffer with
  | nil => rw [buildList_nil]; rfl
  | cons b bs ih =>
    rw [buildList_cons]
    obtain ⟨h1, -, h3⟩ := build_index b buffer
    obtain ⟨ext, hext⟩ := buildList_ext bs (b.build buffer).2
    simp only [List.map_cons, ih]
    rw [hext, List.getElem?_append_left (by omega), h3]
    rfl

theorem buildList_length (bs : List ProtoNodeBuilder) (buffer : List ProtoNode) :
    (ProtoNodeBuilder.buildList bs buffer).1.length = bs.length := by
  induction bs generalizing buffer with
  | nil => simp [buildList_nil]
  | cons b bs ih => rw [buildList_cons]; simp [ih]

/-! ### Connection lifecycle lemmas -/

theorem clientLoop_succ (closedObs polls promotes : Nat → Bool) (fuel t : Nat)
    (mp : Bool) :
    clientLoop closedObs polls promotes (fuel + 1) t mp =
      if closedObs t || mp then some ([], t, mp)
      else if polls t then
        (clientLoop closedObs polls promotes fuel (t + 1) (mp || promotes t)).map
          (fun r => (Ev.processClient :: r.1, r.2))
      else
        (clientLoop closedObs polls promotes fuel (t + 1) mp).map
          (fun r => (r.1, r.2)) := rfl

theorem playerLoop_succ (closedObs polls : Nat → Bool) (fuel t : Nat) :
    playerLoop closedObs polls (fuel + 1) t =
      if closedObs t then some ([], t)
      else if polls t then
        (playerLoop closedObs polls fuel (t + 1)).map
          (fun r => (Ev.processPlayer :: r.1, r.2))
      else
        (playerLoop closedObs polls fuel (t + 1)).map (fun r => (r.1, r.2)) := rfl

/-- The pre-authentication loop only emits packet-processing events. -/
theorem clientLoop_events (closedObs polls promotes : Nat → Bool) :
    ∀ fuel t mp evs texit mpexit,
      clientLoop closedObs polls promotes fuel t mp = some (evs, texit, mpexit) →
      ∀ e ∈ evs, e = Ev.processClient := by
  intro fuel
  induction fuel with
  | zero => intro t mp evs texit mpexit h; exact absurd h (by simp [clientLoop])
  | succ fuel ih =>
    intro t mp evs texit mpexit h
    rw [clientLoop_succ] at h
    by_cases hc : closedObs t || mp
    · rw [if_pos hc] at h
      injection h with h
      injection h with h1 h2
      rw [← h1]
      intro e he
      exact absurd he (by simp)
    · rw [if_neg hc] at h
      by_cases hpoll : polls t
      · rw [if_pos hpoll] at h
        simp only [Option.map_eq_some'] at h
        obtain ⟨r, hr, heq⟩ := h
        injection heq with h1 h2
        rw [← h1]
        intro e he
        rcases List.mem_cons.mp he with he | he
        · exact he
        · exact ih (t + 1) (mp || promotes t) r.1 r.2.1 r.2.2 (by rw [hr]) e he
      · rw [if_neg hpoll] at h
        simp only [Option.map_eq_some'] at h
        obtain ⟨r, hr, heq⟩ := h
        injection heq with h1 h2
        rw [← h1]
        exact ih (t + 1) mp r.1 r.2.1 r.2.2 (by rw [hr])

/-- If closed is observed set at `tc` and no promotion request is processed
before `tc`, the pre-authentication loop exits with `make_player` still
false, no later than `tc`. -/
theorem clientLoop_no_promote (closedObs polls promotes : Nat → Bool)
    (tc : Nat) (hclosed : closedObs tc = true)
    (hnp : ∀ t, t < tc → promotes t = false) :
    ∀ fuel t0, t0 ≤ tc → tc < t0 + fuel →
      ∃ evs texit,
        clientLoop closedObs polls promotes fuel t0 false = some (evs, texit, false)
          ∧ texit ≤ tc := by
  intro fuel
  induction fuel with
  | zero => intro t0 h1 h2; omega
  | succ fuel ih =>
    intro t0 h1 h2
    rw [clientLoop_succ]
    by_cases hc : closedObs t0 = true
    · rw [if_pos (by simp [hc])]
      exact ⟨[], t0, rfl, h1⟩
    · have ht0 : t0 < tc := by
        rcases Nat.lt_or_ge t0 tc with h | h
        · exact h
        · have : t0 = tc := by omega
          rw [this] at hc
          exact absurd hclosed hc
      rw [if_neg (by simp [hc])]
      by_cases hpoll : polls t0
      · rw [if_pos hpoll]
        have hmp : (false || promotes t0) = false := by
          simp [hnp t0 ht0]
        rw [hmp]
        obtain ⟨evs, texit, hrec, hle⟩ := ih (t0 + 1) (by omega) (by omega)
        exact ⟨Ev.processClient :: evs, texit, by rw [hrec]; rfl, hle⟩
      · rw [if_neg hpoll]
        obtain ⟨evs, texit, hrec, hle⟩ := ih (t0 + 1) (by omega) (by omega)
        exact ⟨evs, texit, by rw [hrec]; rfl, hle⟩

/-- The in-game loop terminates once closed is observed set, and only emits
player packet-processing events. -/
theorem playerLoop_total (closedObs polls : Nat → Bool) (tcp : Nat)
    (hclosed : closedObs tcp = true) :
    ∀ fuel t0, t0 ≤ tcp → tcp < t0 + fuel →
      ∃ evs texit, playerLoop closedObs polls fuel t0 = some (evs, texit) ∧
        ∀ e ∈ evs, e = Ev.processPlayer := by
  intro fuel
  induction fuel with
  | zero => intro t0 h1 h2; omega
  | succ fuel ih =>
    intro t0 h1 h2
    rw [playerLoop_succ]
    by_cases hc : closedObs t0 = true
    · rw [if_pos hc]
      exact ⟨[], t0, rfl, by intro e he; exact absurd he (by simp)⟩
    · have ht0 : t0 < tcp := by
        rcases Nat.lt_or_ge t0 tcp with h | h
        · exact h
        · have : t0 = tcp := by omega
          rw [this] at hc
          exact absurd hclosed hc
      rw [if_neg hc]
      obtain ⟨evs, texit, hrec, hall⟩ := ih (t0 + 1) (by omega) (by omega)
      by_cases hpoll : polls t0
      · rw [if_pos hpoll]
        refine ⟨Ev.processPlayer :: evs, texit, by rw [hrec]; rfl, ?_⟩
        intro e he
        rcases List.mem_cons.mp he with he | he
        · exact he
        · exact hall e he
      · rw [if_neg hpoll]
        exact ⟨evs, texit, by rw [hrec]; rfl, hall⟩

theorem rootCountList_nil : ProtoNodeBuilder.rootCountList [] = 0 := rfl

theorem rootCountList_cons (b : ProtoNodeBuilder) (bs : List ProtoNodeBuilder) :
    ProtoNodeBuilder.rootCountList (b :: bs) =
      b.rootCountB + ProtoNodeBuilder.rootCountList bs := rfl

theorem rootCountB_mk (cs : List ProtoNodeBuilder) (t : ProtoNodeType) :
    (ProtoNodeBuilder.mk cs t).rootCountB =
      (if t = .root then 1 else 0) + ProtoNodeBuilder.rootCountList cs := rfl

theorem rootCountList_append (a b : List ProtoNodeBuilder) :
    ProtoNodeBuilder.rootCountList (a ++ b) =
      ProtoNodeBuilder.rootCountList a + ProtoNodeBuilder.rootCountList b := by
  induction a with
  | nil => rw [List.nil_append, rootCountList_nil]; omega
  | cons x a ih =>
    rw [List.cons_append, rootCountList_cons, rootCountList_cons, ih]
    omega

/-- The recursive compiler never emits a Root-tagged builder. -/
theorem ntpnb_rootCount (cmd_src : CommandSender) (nodes : List Node) :
    ∀ fuel ch ex bs,
      nodes_to_proto_node_builders cmd_src nodes fuel ch = some (ex, bs) →
      ProtoNodeBuilder.rootCountList bs = 0 := by
  intro fuel
  induction fuel with
  | zero => intro ch ex bs h; rw [ntpnb_zero] at h; exact absurd h (by simp)
  | succ fuel ih =>
    intro ch ex bs h
    cases ch with
    | nil =>
      rw [ntpnb_nil] at h
      injection h with h
      injection h with h1 h2
      rw [← h2]
      rfl
    | cons i rest =>
      rw [ntpnb_cons] at h
      simp only [Option.bind_eq_some] at h
      obtain ⟨node, hnode, hd, hhd, rr, hrest, heq⟩ := h
      injection heq with heq
      injection heq with heq1 heq2
      rw [← heq2, rootCountList_append]
      have hrest0 : ProtoNodeBuilder.rootCountList rr.2 = 0 :=
        ih rest rr.1 rr.2 (by rw [← hrest])
      have hhd0 : ProtoNodeBuilder.rootCountList hd.2 = 0 := by
        cases htype : node.node_type with
        | argument name consumer =>
          rw [headStep_argument cmd_src nodes fuel node name consumer htype] at hhd
          simp only [Option.bind_eq_some] at hhd
          obtain ⟨p, hp, hpure⟩ := hhd
          injection hpure with hpure
          rw [← hpure]
          have := ih node.children p.1 p.2 (by rw [← hp])
          simp [rootCountList_cons, rootCountList_nil, rootCountB_mk, this]
        | literal string =>
          rw [headStep_literal cmd_src nodes fuel node string htype] at hhd
          simp only [Option.bind_eq_some] at hhd
          obtain ⟨p, hp, hpure⟩ := hhd
          injection hpure with hpure
          rw [← hpure]
          have := ih node.children p.1 p.2 (by rw [← hp])
          simp [rootCountList_cons, rootCountList_nil, rootCountB_mk, this]
        | executeLeaf =>
          rw [headStep_executeLeaf cmd_src nodes fuel node htype] at hhd
          injection hhd with hhd
          rw [← hhd]
          rfl
        | require predicate =>
          by_cases hp : predicate cmd_src
          · rw [headStep_require_true cmd_src nodes fuel node predicate htype hp] at hhd
            simp only [Option.bind_eq_some] at hhd
            obtain ⟨p, hpc, hpure⟩ := hhd
            injection hpure with hpure
            rw [← hpure]
            exact ih node.children p.1 p.2 (by rw [← hpc])
          · have hp' : predicate cmd_src = false := by simpa using hp
            rw [headStep_require_false cmd_src nodes fuel node predicate htype hp'] at hhd
            injection hhd with hhd
            rw [← hhd]
            rfl
      omega

/-- `headStep` succeeds whenever the recursive call on the node's children
succeeds. -/
theorem headStep_total (cmd_src : CommandSender) (nodes : List Node)
    (fuel : Nat) (node : Node)
    (h : ∃ rr, nodes_to_proto_node_builders cmd_src nodes fuel node.children = some rr) :
    ∃ hd, headStep cmd_src nodes fuel node = some hd := by
  obtain ⟨rr, hrr⟩ := h
  cases htype : node.node_type with
  | argument name consumer =>
    rw [headStep_argument cmd_src nodes fuel node name consumer htype, hrr]
    exact ⟨_, rfl⟩
  | literal string =>
    rw [headStep_literal cmd_src nodes fuel node string htype, hrr]
    exact ⟨_, rfl⟩
  | executeLeaf =>
    rw [headStep_executeLeaf cmd_src nodes fuel node htype]
    exact ⟨_, rfl⟩
  | require predicate =>
    by_cases hp : predicate cmd_src
    · rw [headStep_require_true cmd_src nodes fuel node predicate htype hp, hrr]
      exact ⟨_, rfl⟩
    · have hp' : predicate cmd_src = false := by simpa using hp
      rw [headStep_require_false cmd_src nodes fuel node predicate htype hp']
      exact ⟨_, rfl⟩

/-- The compiler reads the requester identity only through Require
predicates: two identities on which every Require predicate of the arena
agrees compile identically. -/
theorem ntpnb_congr (s1 s2 : CommandSender) (nodes : List Node)
    (hagree : ∀ (i : Nat) (node : Node) (p : CommandSender → Bool),
      nodes[i]? = some node → node.node_type = .require p → p s1 = p s2) :
    ∀ fuel ch,
      nodes_to_proto_node_builders s1 nodes fuel ch =
        nodes_to_proto_node_builders s2 nodes fuel ch := by
  intro fuel
  induction fuel with
  | zero => intro ch; rw [ntpnb_zero, ntpnb_zero]
  | succ fuel ih =>
    intro ch
    cases ch with
    | nil => rw [ntpnb_nil, ntpnb_nil]
    | cons i rest =>
      rw [ntpnb_cons, ntpnb_cons, ih rest]
      cases hnode : nodes[i]? with
      | none => rfl
      | some node =>
        simp only [Option.some_bind]
        have hhd : headStep s1 nodes fuel node = headStep s2 nodes fuel node := by
          cases htype : node.node_type with
          | argument name consumer =>
            rw [headStep_argument s1 nodes fuel node name consumer htype,
              headStep_argument s2 nodes fuel node name consumer htype,
              ih node.children]
          | literal string =>
            rw [headStep_literal s1 nodes fuel node string htype,
              headStep_literal s2 nodes fuel node string htype,
              ih node.children]
          | executeLeaf =>
            rw [headStep_executeLeaf s1 nodes fuel node htype,
              headStep_executeLeaf s2 nodes fuel node htype]
          | require predicate =>
            have hps : predicate s1 = predicate s2 := hagree i node predicate hnode htype
            by_cases hp : predicate s1 = true
            · rw [headStep_require_true s1 nodes fuel node predicate htype hp,
                headStep_require_true s2 nodes fuel node predicate htype (by rw [← hps]; exact hp),
                ih node.children]
            · have hp' : predicate s1 = false := by simpa using hp
              rw [headStep_require_false s1 nodes fuel node predicate htype hp',
                headStep_require_false s2 nodes fuel node predicate htype (by rw [← hps]; exact hp')]
        rw [hhd]

/-! ### Dispatcher-level lemmas -/

theorem flb_nil (cmd_src : CommandSender) (d : CommandDispatcher) (fuel : Nat) :
    first_level_builders cmd_src d fuel [] = some [] := rfl

theorem flb_cons_none (cmd_src : CommandSender) (d : CommandDispatcher)
    (fuel : Nat) (key : String) (rest : List String)
    (h : d.get_tree key = none) :
    first_level_builders cmd_src d fuel (key :: rest) =
      first_level_builders cmd_src d fuel rest := by
  rw [first_level_builders, h]

theorem flb_cons_some (cmd_src : CommandSender) (d : CommandDispatcher)
    (fuel : Nat) (key : String) (rest : List String) (tree : CommandTree)
    (h : d.get_tree key = some tree) :
    first_level_builders cmd_src d fuel (key :: rest) =
      (nodes_to_proto_node_builders cmd_src tree.nodes fuel tree.children).bind
        (fun r =>
          (first_level_builders cmd_src d fuel rest).bind fun restBuilders =>
            some (ProtoNodeBuilder.mk r.2 (.literal key r.1) :: restBuilders)) := by
  rw [first_level_builders, h]

/-- Shape of the top-level builder list: one Literal named by each command
whose tree resolves, in enumeration order; never a Root tag. -/
theorem flb_spec (cmd_src : CommandSender) (d : CommandDispatcher) (fuel : Nat) :
    ∀ keys bs, first_level_builders cmd_src d fuel keys = some bs →
      bs.map (fun b => protoName b.node_type)
          = (keys.filter (fun k => (d.get_tree k).isSome)).map some ∧
      ProtoNodeBuilder.rootCountList bs = 0 := by
  intro keys
  induction keys with
  | nil =>
    intro bs h
    rw [flb_nil] at h
    injection h with h
    rw [← h]
    exact ⟨rfl, rfl⟩
  | cons key rest ih =>
    intro bs h
    cases htree : d.get_tree key with
    | none =>
      rw [flb_cons_none cmd_src d fuel key rest htree] at h
      obtain ⟨h1, h2⟩ := ih bs h
      rw [List.filter_cons]
      simp only [htree, Option.isSome_none, Bool.false_eq_true, if_false]
      exact ⟨h1, h2⟩
    | some tree =>
      rw [flb_cons_some cmd_src d fuel key rest tree htree] at h
      simp only [Option.bind_eq_some] at h
      obtain ⟨p, hp, rb, hrb, heq⟩ := h
      obtain ⟨h1, h2⟩ := ih rb hrb
      injection heq with heq
      rw [← heq]
      constructor
      · rw [List.map_cons, h1, List.filter_cons]
        simp [htree, protoName, ProtoNodeBuilder.node_type]
      · rw [rootCountList_cons, rootCountB_mk, h2,
          ntpnb_rootCount cmd_src tree.nodes fuel tree.children p.1 p.2
            (by rw [← hp])]
        simp

theorem rootCount_append (a b : List ProtoNode) :
    rootCount (a ++ b) = rootCount a + rootCount b := by
  simp [rootCount, List.filter_append]

/-- Everything C3/C4/C5 need about one compiled packet: the Root is unique
and sits at the last index, all child indices descend, and the Root's
children are exactly the resolvable commands, in enumeration order. -/
theorem send_spec (cmd_src : CommandSender) (d : CommandDispatcher) (fuel : Nat)
    (pn : List ProtoNode) (ri : Nat)
    (h : send_c_commands_packet cmd_src d fuel = some (pn, ri)) :
    ∃ js : List Nat,
      ri + 1 = pn.length ∧
      pn[ri]? = some ⟨js, .root⟩ ∧
      rootCount pn = 1 ∧
      childrenBounded pn ∧
      js.length = ((d.commands.map Prod.fst).filter
        (fun k => (d.get_tree k).isSome)).length ∧
      js.map (fun j => pn[j]?.bind (fun nd => protoName nd.node_type))
        = ((d.commands.map Prod.fst).filter
            (fun k => (d.get_tree k).isSome)).map some := by
  unfold send_c_commands_packet at h
  simp only [Option.bind_eq_some] at h
  obtain ⟨fl, hfl, heq⟩ := h
  injection heq with heq
  injection heq with heq1 heq2
  obtain ⟨hmap, hroot0⟩ := flb_spec cmd_src d fuel (d.commands.map Prod.fst) fl hfl
  have hlenfl : fl.length =
      ((d.commands.map Prod.fst).filter (fun k => (d.get_tree k).isSome)).length := by
    have := congrArg List.length hmap
    simpa using this
  rw [build_eq] at heq1 heq2
  refine ⟨(ProtoNodeBuilder.buildList fl []).1, ?_, ?_, ?_, ?_, ?_, ?_⟩
  · rw [← heq1, ← heq2]
    simp
  · rw [← heq1, ← heq2]
    exact List.getElem?_concat_length _ _
  · rw [← heq1, rootCount_append, buildList_rootCount fl [], hroot0]
    have : rootCount ([] : List ProtoNode) = 0 := rfl
    rw [this]
    rfl
  · rw [← heq1]
    have hemp : childrenBounded ([] : List ProtoNode) := by
      intro k node hk
      exact absurd hk (by simp)
    have := build_bounded (ProtoNodeBuilder.mk fl ProtoNodeType.root) [] hemp
    rw [build_eq] at this
    exact this
  · rw [buildList_length fl []]
    exact hlenfl
  · have htypes := buildList_types fl []
    have hsame : ∀ j ∈ (ProtoNodeBuilder.buildList fl []).1,
        pn[j]? = ((ProtoNodeBuilder.buildList fl []).2)[j]? := by
      intro j hj
      rw [← heq1]
      exact List.getElem?_append_left (buildList_indices fl [] j hj).2
    calc ((ProtoNodeBuilder.buildList fl []).1).map
          (fun j => pn[j]?.bind (fun nd => protoName nd.node_type))
        = ((ProtoNodeBuilder.buildList fl []).1).map
            (fun j => (((ProtoNodeBuilder.buildList fl []).2)[j]?.map
              ProtoNode.node_type).bind protoName) := by
          apply List.map_congr_left
          intro j hj
          rw [hsame j hj]
          cases ((ProtoNodeBuilder.buildList fl []).2)[j]? <;> rfl
      _ = (((ProtoNodeBuilder.buildList fl []).1).map
            (fun j => ((ProtoNodeBuilder.buildList fl []).2)[j]?.map
              ProtoNode.node_type)).map (fun o => o.bind protoName) := by
          rw [List.map_map]
          rfl
      _ = (fl.map (fun b => some b.node_type)).map (fun o => o.bind protoName) := by
          rw [htypes]
      _ = fl.map (fun b => protoName b.node_type) := by
          rw [List.map_map]
          rfl
      _ = ((d.commands.map Prod.fst).filter
            (fun k => (d.get_tree k).isSome)).map some := hmap

/-- Top-level builder lists agree for two identities on which every Require
predicate of every resolvable arena agrees. -/
theorem flb_congr (s1 s2 : CommandSender) (d : CommandDispatcher)
    (hagree : ∀ (key : String) (tree : CommandTree), d.get_tree key = some tree →
      ∀ (i : Nat) (node : Node) (p : CommandSender → Bool),
        tree.nodes[i]? = some node → node.node_type = .require p → p s1 = p s2) :
    ∀ fuel keys,
      first_level_builders s1 d fuel keys = first_level_builders s2 d fuel keys := by
  intro fuel keys
  induction keys with
  | nil => rw [flb_nil, flb_nil]
  | cons key rest ih =>
    cases htree : d.get_tree key with
    | none =>
      rw [flb_cons_none s1 d fuel key rest htree,
        flb_cons_none s2 d fuel key rest htree, ih]
    | some tree =>
      rw [flb_cons_some s1 d fuel key rest tree htree,
        flb_cons_some s2 d fuel key rest tree htree, ih,
        ntpnb_congr s1 s2 tree.nodes (hagree key tree htree) fuel tree.children]

/-- Fuel sufficiency under a rank function that strictly decreases along
child edges (the finite-arena form of acyclicity). -/
theorem ntpnb_total_aux (cmd_src : CommandSender) (nodes : List Node)
    (d : Nat → Nat)
    (hvalid : ∀ (i : Nat) (node : Node), nodes[i]? = some node →
      ∀ j ∈ node.children, j < nodes.length)
    (hrank : ∀ (i : Nat) (node : Node), nodes[i]? = some node →
      ∀ j ∈ node.children, d j < d i) :
    ∀ B ch, (∀ j ∈ ch, j < nodes.length ∧ d j < B) →
      ∃ fuel r, nodes_to_proto_node_builders cmd_src nodes fuel ch = some r := by
  intro B
  induction B using Nat.strong_induction_on with
  | _ B ihB =>
    intro ch
    induction ch with
    | nil => exact fun _ => ⟨1, (false, []), ntpnb_nil cmd_src nodes 0⟩
    | cons i rest ihrest =>
      intro hch
      obtain ⟨hilt, hiB⟩ := hch i (List.mem_cons_self i rest)
      have hnode : nodes[i]? = some (nodes.get ⟨i, hilt⟩) := by
        rw [List.getElem?_eq_getElem hilt]
        rfl
      obtain ⟨f1, r1, h1⟩ := ihB (d i) hiB (nodes.get ⟨i, hilt⟩).children
        (fun j hj => ⟨hvalid i _ hnode j hj, hrank i _ hnode j hj⟩)
      obtain ⟨f2, r2, h2⟩ :=
        ihrest (fun j hj => hch j (List.mem_cons_of_mem i hj))
      have h1' : nodes_to_proto_node_builders cmd_src nodes (max f1 f2)
          (nodes.get ⟨i, hilt⟩).children = some r1 :=
        ntpnb_mono_le cmd_src nodes (Nat.le_max_left f1 f2) h1
      have h2' : nodes_to_proto_node_builders cmd_src nodes (max f1 f2) rest
          = some r2 :=
        ntpnb_mono_le cmd_src nodes (Nat.le_max_right f1 f2) h2
      obtain ⟨hd, hhd⟩ := headStep_total cmd_src nodes (max f1 f2)
        (nodes.get ⟨i, hilt⟩) ⟨r1, h1'⟩
      refine ⟨max f1 f2 + 1, (hd.1 || r2.1, hd.2 ++ r2.2), ?_⟩
      rw [ntpnb_cons, hnode]
      simp only [Option.some_bind]
      rw [hhd]
      simp only [Option.some_bind]
      rw [h2']
      rfl

theorem master_client_id_after_eq (n : Nat) :
    master_client_id_after n = n % 2 ^ 16 := by
  induction n with
  | zero => rfl
  | succ n ih =>
    simp only [master_client_id_after, next_client_id, ih]
    omega

/-- C10: connection identifiers come from a 16-bit counter incremented with
wrapping addition, so the `n`-th connection gets id `n mod 2^16`; after 2^16
accepted connections the counter is back at 0, and connection `n + 2^16`
reuses the identifier of connection `n`, which may still be live — so
identifiers are not globally unique. -/
theorem client_id_wraps :
    (∀ n, client_id n = n % 2 ^ 16) ∧
    master_client_id_after (2 ^ 16) = 0 ∧
    (∀ n, client_id (n + 2 ^ 16) = client_id n) ∧
    client_id (2 ^ 16) = client_id 0 ∧ (2 ^ 16 : Nat) ≠ 0 := by
  refine ⟨fun n => master_client_id_after_eq n,
    by rw [master_client_id_after_eq]; omega, ?_, ?_, by decide⟩
  · intro n
    rw [client_id, client_id, next_client_id, next_client_id]
    simp only [master_client_id_after_eq]
    omega
  · rw [client_id, client_id, next_client_id, next_client_id]
    simp only [master_client_id_after_eq]
    omega

/-- C9: the console task forwards each non-empty `read_line` result as
exactly one dispatch carrying the fixed `CommandSender.console` identity, and
dispatches nothing for an empty read; the dispatch list is exactly the
non-empty reads in order, each paired with the Console identity. -/
theorem console_dispatches_nonempty_lines (reads : List String) :
    setup_console reads
      = (reads.filter (fun out => !out.isEmpty)).map
          (fun out => ⟨CommandSender.console, out⟩) ∧
    (∀ dp ∈ setup_console reads, dp.sender = CommandSender.console) ∧
    setup_console [""] = [] := by
  refine ⟨?_, ?_, rfl⟩
  · induction reads with
    | nil => rfl
    | cons r rest ih =>
      by_cases h : r.isEmpty <;>
        simp [setup_console, List.flatMap_cons, h, List.filter_cons] at ih ⊢ <;>
        try exact ih
  · intro dp hdp
    simp only [setup_console, List.mem_flatMap] at hdp
    obtain ⟨out, -, hmem⟩ := hdp
    by_cases h : out.isEmpty <;> simp [h] at hmem
    rw [hmem]

/-- Witness for C1 on scenario 2's arena: dropping the false-gated child
index 0 (whose subtree holds the Argument and its ExecuteLeaf) leaves the
compiled level unchanged — the gated subtree is entirely absent. -/
theorem require_false_skips_subtree_witness :
    gatedNodes[0]? = some ⟨[1], .require (fun _ => false)⟩ ∧
    (fun (_ : CommandSender) => false) CommandSender.console = false ∧
    nodes_to_proto_node_builders .console gatedNodes 4 ([] ++ 0 :: []) =
      some (false, []) ∧
    nodes_to_proto_node_builders .console gatedNodes 4 ([] ++ []) =
      some (false, []) :=
  ⟨rfl, rfl, rfl,
    require_false_skips_subtree .console gatedNodes 0
      ⟨[1], .require (fun _ => false)⟩ (fun _ => false) rfl rfl rfl
      [] 4 [] (false, []) rfl⟩

/-- C2: a compiled level's `is_executable` flag is true iff the level has a
direct ExecuteLeaf child or a passing Require descendant that reports
executable (`ExecutableFrom`); and an ExecuteLeaf emits no wire node of its
own — it only forces the current level's flag to true, leaving the builder
list exactly that of the remaining children. -/
theorem executable_flag_iff :
    (∀ (cmd_src : CommandSender) (nodes : List Node) (fuel : Nat)
        (ch : List Nat) (ex : Bool) (bs : List ProtoNodeBuilder),
      nodes_to_proto_node_builders cmd_src nodes fuel ch = some (ex, bs) →
      (ex = true ↔ ExecutableFrom cmd_src nodes ch)) ∧
    (∀ (cmd_src : CommandSender) (nodes : List Node) (fuel i : Nat)
        (rest : List Nat) (node : Node),
      nodes[i]? = some node → node.node_type = .executeLeaf →
      nodes_to_proto_node_builders cmd_src nodes (fuel + 1) (i :: rest) =
        (nodes_to_proto_node_builders cmd_src nodes fuel rest).map
          (fun r => (true, r.2))) := by
  constructor
  · exact fun cmd_src nodes fuel ch ex bs h =>
      ntpnb_exec_iff cmd_src nodes fuel ch ex bs h
  · intro cmd_src nodes fuel i rest node hnode htype
    rw [ntpnb_cons, hnode]
    simp only [Option.some_bind]
    rw [headStep_executeLeaf cmd_src nodes fuel node htype]
    simp only [Option.some_bind]
    cases nodes_to_proto_node_builders cmd_src nodes fuel rest with
    | none => rfl
    | some r => simp

/-- Witness for C2: a level consisting of one ExecuteLeaf child compiles to
flag true with no emitted builder, and the iff holds there. -/
theorem executable_flag_iff_witness :
    nodes_to_proto_node_builders .console leafNodes 2 [0] = some (true, []) ∧
    (true = true ↔ ExecutableFrom .console leafNodes [0]) ∧
    leafNodes[0]? = some ⟨[], .executeLeaf⟩ ∧
    nodes_to_proto_node_builders .console leafNodes 2 (0 :: []) =
      (nodes_to_proto_node_builders .console leafNodes 1 []).map
        (fun r => (true, r.2)) :=
  ⟨rfl, executable_flag_iff.1 .console leafNodes 2 [0] true [] rfl, rfl,
    executable_flag_iff.2 .console leafNodes 1 0 [] ⟨[], .executeLeaf⟩ rfl rfl⟩

/-- C3: every compiled packet has exactly one Root node, the Root sits at
the last index, and every node's child list holds only indices strictly
below its own; concretely, two registered flat commands compile to exactly
3 nodes — Literals at 0 and 1 and the Root at 2 with children [0, 1]. -/
theorem root_last_unique_descending :
    (∀ (cmd_src : CommandSender) (d : CommandDispatcher) (fuel : Nat)
        (pn : List ProtoNode) (ri : Nat),
      send_c_commands_packet cmd_src d fuel = some (pn, ri) →
      ri + 1 = pn.length ∧
      (∃ js, pn[ri]? = some ⟨js, .root⟩) ∧
      rootCount pn = 1 ∧
      childrenBounded pn) ∧
    send_c_commands_packet .console helpStopDispatcher 2 =
      some (helpStopPacket, 2) := by
  constructor
  · intro cmd_src d fuel pn ri h
    obtain ⟨js, h1, h2, h3, h4, -, -⟩ := send_spec cmd_src d fuel pn ri h
    exact ⟨h1, ⟨js, h2⟩, h3, h4⟩
  · rfl

/-- Witness for C3 on scenario 3's dispatcher. -/
theorem root_last_unique_descending_witness :
    send_c_commands_packet .console helpStopDispatcher 2 =
      some (helpStopPacket, 2) ∧
    (2 + 1 = helpStopPacket.length ∧
      (∃ js, helpStopPacket[2]? = some ⟨js, .root⟩) ∧
      rootCount helpStopPacket = 1 ∧
      childrenBounded helpStopPacket) :=
  ⟨rfl, root_last_unique_descending.1 .console helpStopDispatcher 2
    helpStopPacket 2 rfl⟩

/-- C4: compilation output depends on the requester only through the values
of the arena's Require predicates — two identities on which every predicate
of every registered arena agrees compile to identical packets (in
particular, recompiling with the same identity is byte-identical) — and the
Root's children carry the registered command names in the dispatcher's
fixed enumeration (registration) order, restricted to resolvable names. -/
theorem compile_identity_independent_and_ordered :
    (∀ (s1 s2 : CommandSender) (d : CommandDispatcher),
      (∀ kv ∈ d.commands, ∀ tree : CommandTree, kv.2 = some tree →
        ∀ (i : Nat) (node : Node) (p : CommandSender → Bool),
          tree.nodes[i]? = some node → node.node_type = .require p →
          p s1 = p s2) →
      ∀ fuel, send_c_commands_packet s1 d fuel
        = send_c_commands_packet s2 d fuel) ∧
    (∀ (cmd_src : CommandSender) (d : CommandDispatcher) (fuel : Nat)
        (pn : List ProtoNode) (ri : Nat),
      send_c_commands_packet cmd_src d fuel = some (pn, ri) →
      ∃ js, pn[ri]? = some ⟨js, .root⟩ ∧
        js.map (fun j => pn[j]?.bind (fun nd => protoName nd.node_type))
          = ((d.commands.map Prod.fst).filter
              (fun k => (d.get_tree k).isSome)).map some) := by
  constructor
  · intro s1 s2 d hagree fuel
    unfold send_c_commands_packet
    rw [flb_congr s1 s2 d ?_ fuel (d.commands.map Prod.fst)]
    intro key tree htree i node p hn ht
    unfold CommandDispatcher.get_tree at htree
    obtain ⟨kv, hfind, hsnd⟩ := Option.bind_eq_some.mp htree
    exact hagree kv (List.mem_of_find?_eq_some hfind) tree hsnd i node p hn ht
  · intro cmd_src d fuel pn ri h
    obtain ⟨js, -, h2, -, -, -, h6⟩ := send_spec cmd_src d fuel pn ri h
    exact ⟨js, h2, h6⟩

/-- Witness for C4: two different player identities compile the (gate-free)
help/stop dispatcher identically, and the Root's children name "help" then
"stop" in registration order. -/
theorem compile_identity_independent_and_ordered_witness :
    send_c_commands_packet (.player 1) helpStopDispatcher 2 =
      send_c_commands_packet (.player 2) helpStopDispatcher 2 ∧
    send_c_commands_packet .console helpStopDispatcher 2 =
      some (helpStopPacket, 2) ∧
    (∃ js, helpStopPacket[2]? = some ⟨js, .root⟩ ∧
      js.map (fun j => helpStopPacket[j]?.bind
          (fun nd => protoName nd.node_type))
        = ((helpStopDispatcher.commands.map Prod.fst).filter
            (fun k => (helpStopDispatcher.get_tree k).isSome)).map some) := by
  refine ⟨?_, rfl,
    compile_identity_independent_and_ordered.2 .console helpStopDispatcher 2
      helpStopPacket 2 rfl⟩
  apply compile_identity_independent_and_ordered.1
  intro kv hkv tree htree i node p hn ht
  simp only [helpStopDispatcher, List.mem_cons, List.not_mem_nil, or_false] at hkv
  rcases hkv with hkv | hkv <;>
    · rw [hkv] at htree
      injection htree with htree
      rw [← htree] at hn
      cases i with
      | zero =>
        injection hn with hn
        rw [← hn] at ht
        exact NodeType.noConfusion ht
      | succ n => simp [flatTree] at hn

/-- C5: a registered name whose `get_tree` fails is silently skipped — the
Root's child count equals the number of resolvable names (one fewer per
failure), and the packet-building function still returns normally with no
error surfaced; concretely, with "help", "nonexistent" (unresolvable) and
"stop" registered, the output is the same 3-node packet as for two commands,
the Root having 2 = 3 − 1 children. -/
theorem lookup_failure_skipped :
    (∀ (cmd_src : CommandSender) (d : CommandDispatcher) (fuel : Nat)
        (pn : List ProtoNode) (ri : Nat),
      send_c_commands_packet cmd_src d fuel = some (pn, ri) →
      ∃ js, pn[ri]? = some ⟨js, .root⟩ ∧
        js.length = ((d.commands.map Prod.fst).filter
          (fun k => (d.get_tree k).isSome)).length) ∧
    lossyDispatcher.get_tree "nonexistent" = none ∧
    lossyDispatcher.commands.length = 3 ∧
    send_c_commands_packet .console lossyDispatcher 2 =
      some (helpStopPacket, 2) ∧
    helpStopPacket[2]? = some ⟨[0, 1], .root⟩ ∧
    ([0, 1] : List Nat).length + 1 = lossyDispatcher.commands.length := by
  refine ⟨?_, rfl, rfl, rfl, rfl, rfl⟩
  intro cmd_src d fuel pn ri h
  obtain ⟨js, -, h2, -, -, h5, -⟩ := send_spec cmd_src d fuel pn ri h
  exact ⟨js, h2, h5⟩

/-- Witness for C5 on scenario 5's dispatcher. -/
theorem lookup_failure_skipped_witness :
    send_c_commands_packet .console lossyDispatcher 2 =
      some (helpStopPacket, 2) ∧
    (∃ js, helpStopPacket[2]? = some ⟨js, .root⟩ ∧
      js.length = ((lossyDispatcher.commands.map Prod.fst).filter
        (fun k => (lossyDispatcher.get_tree k).isSome)).length) :=
  ⟨rfl, lookup_failure_skipped.1 .console lossyDispatcher 2 helpStopPacket 2 rfl⟩

/-- C6: under the arena invariant — every stored child index valid, and a
rank strictly decreasing along child edges (acyclicity of the finite child
relation) — the compiler terminates normally: some fuel returns `some`, so
the embedded `nodes[i]?` lookup never fails and the Rust `nodes[*i]`
indexing never panics. -/
theorem compiler_terminates_on_acyclic (cmd_src : CommandSender)
    (nodes : List Node) (d : Nat → Nat)
    (hvalid : ∀ (i : Fin nodes.length),
      ∀ j ∈ (nodes.get i).children, j < nodes.length)
    (hrank : ∀ (i : Fin nodes.length),
      ∀ j ∈ (nodes.get i).children, d j < d i.val)
    (ch : List Nat) (hch : ∀ j ∈ ch, j < nodes.length) :
    ∃ fuel r, nodes_to_proto_node_builders cmd_src nodes fuel ch = some r := by
  have hvalid' : ∀ (i : Nat) (node : Node), nodes[i]? = some node →
      ∀ j ∈ node.children, j < nodes.length := by
    intro i node hn j hj
    obtain ⟨hlt, hget⟩ := List.getElem?_eq_some.mp hn
    refine hvalid ⟨i, hlt⟩ j ?_
    have : nodes.get ⟨i, hlt⟩ = node := hget
    rw [this]
    exact hj
  have hrank' : ∀ (i : Nat) (node : Node), nodes[i]? = some node →
      ∀ j ∈ node.children, d j < d i := by
    intro i node hn j hj
    obtain ⟨hlt, hget⟩ := List.getElem?_eq_some.mp hn
    refine hrank ⟨i, hlt⟩ j ?_
    have : nodes.get ⟨i, hlt⟩ = node := hget
    rw [this]
    exact hj
  refine ntpnb_total_aux cmd_src nodes d hvalid' hrank'
    ((ch.map d).sum + 1) ch (fun j hj => ⟨hch j hj, ?_⟩)
  have : d j ≤ (ch.map d).sum :=
    List.single_le_sum (fun y _ => Nat.zero_le y) (d j)
      (List.mem_map_of_mem d hj)
  omega

/-- Witness for C6 on scenario 1's arena with rank `2 − i`. -/
theorem compiler_terminates_on_acyclic_witness :
    (∀ (i : Fin gamemodeTree.nodes.length),
      ∀ j ∈ (gamemodeTree.nodes.get i).children, j < gamemodeTree.nodes.length) ∧
    (∀ (i : Fin gamemodeTree.nodes.length),
      ∀ j ∈ (gamemodeTree.nodes.get i).children,
        (fun n => 2 - n) j < (fun n => 2 - n) i.val) ∧
    (∀ j ∈ ([0] : List Nat), j < gamemodeTree.nodes.length) ∧
    (∃ fuel r, nodes_to_proto_node_builders .console gamemodeTree.nodes fuel [0]
      = some r) :=
  ⟨by decide, by decide, by decide,
    compiler_terminates_on_acyclic .console gamemodeTree.nodes (fun n => 2 - n)
      (by decide) (by decide) [0] (by decide)⟩

/-- C7: (a) if closed is observed set before any promotion request is
processed, the task ends without ever constructing a participant — no
add/spawn/remove event occurs; (b) if the pre-authentication loop exits with
the promote flag set, the task performs registration (`add_player`) and
world spawn exactly once, in that order, before any in-game packet
processing, and performs participant removal and registry unregistration
exactly once after the player loop ends. -/
theorem connection_lifecycle :
    (∀ (closedObs polls promotes : Nat → Bool) (tc fuel : Nat),
      closedObs tc = true → (∀ t, t < tc → promotes t = false) → tc < fuel →
      ∃ evs, connectionTask closedObs polls promotes fuel = some evs ∧
        Ev.addPlayer ∉ evs ∧ Ev.spawnPlayer ∉ evs ∧
        Ev.removePlayerWorld ∉ evs ∧ Ev.removePlayerServer ∉ evs) ∧
    (∀ (closedObs polls promotes : Nat → Bool) (fuel : Nat)
        (evs1 : List Ev) (t : Nat),
      clientLoop closedObs polls promotes fuel 0 false = some (evs1, t, true) →
      ∀ tcp, closedObs tcp = true → t + 1 ≤ tcp → tcp < t + 1 + fuel →
      ∃ evs2, connectionTask closedObs polls promotes fuel = some
          (evs1 ++ [Ev.addPlayer, Ev.spawnPlayer] ++ evs2
            ++ [Ev.removePlayerWorld, Ev.removePlayerServer]) ∧
        (∀ e ∈ evs1, e = Ev.processClient) ∧
        (∀ e ∈ evs2, e = Ev.processPlayer)) := by
  constructor
  · intro closedObs polls promotes tc fuel hclosed hnp hfuel
    obtain ⟨evs, texit, hloop, -⟩ :=
      clientLoop_no_promote closedObs polls promotes tc hclosed hnp fuel 0
        (Nat.zero_le tc) (by omega)
    have hall := clientLoop_events closedObs polls promotes fuel 0 false
      evs texit false hloop
    refine ⟨evs, ?_, ?_, ?_, ?_, ?_⟩
    · unfold connectionTask
      rw [hloop]
      rfl
    · intro hmem; exact Ev.noConfusion (hall _ hmem)
    · intro hmem; exact Ev.noConfusion (hall _ hmem)
    · intro hmem; exact Ev.noConfusion (hall _ hmem)
    · intro hmem; exact Ev.noConfusion (hall _ hmem)
  · intro closedObs polls promotes fuel evs1 t hclient tcp hclosed hle hlt
    obtain ⟨evs2, texit, hpl, hall2⟩ :=
      playerLoop_total closedObs polls tcp hclosed fuel (t + 1) hle (by omega)
    refine ⟨evs2, ?_,
      clientLoop_events closedObs polls promotes fuel 0 false evs1 t true
        hclient, hall2⟩
    unfold connectionTask
    rw [hclient]
    simp only [Option.some_bind]
    rw [if_pos trivial, hpl]
    rfl

/-- Witness for C7: a trace whose closed flag fires at time 2 with no
promotion (part a), and a trace that promotes at its first processed packet
and closes at time 3 (part b). -/
theorem connection_lifecycle_witness :
    (fun t => decide (2 ≤ t)) 2 = true ∧
    (∀ t, t < 2 → (fun (_ : Nat) => false) t = false) ∧
    2 < 4 ∧
    (∃ evs, connectionTask (fun t => decide (2 ≤ t)) (fun _ => true)
        (fun _ => false) 4 = some evs ∧
      Ev.addPlayer ∉ evs ∧ Ev.spawnPlayer ∉ evs ∧
      Ev.removePlayerWorld ∉ evs ∧ Ev.removePlayerServer ∉ evs) ∧
    clientLoop (fun t => decide (3 ≤ t)) (fun _ => true)
        (fun t => decide (t = 0)) 6 0 false
      = some ([Ev.processClient], 1, true) ∧
    (fun t => decide (3 ≤ t)) 3 = true ∧
    (∃ evs2, connectionTask (fun t => decide (3 ≤ t)) (fun _ => true)
        (fun t => decide (t = 0)) 6 = some
          ([Ev.processClient] ++ [Ev.addPlayer, Ev.spawnPlayer] ++ evs2
            ++ [Ev.removePlayerWorld, Ev.removePlayerServer]) ∧
      (∀ e ∈ [Ev.processClient], e = Ev.processClient) ∧
      (∀ e ∈ evs2, e = Ev.processPlayer)) :=
  ⟨rfl, fun t ht => rfl, by decide,
    connection_lifecycle.1 (fun t => decide (2 ≤ t)) (fun _ => true)
      (fun _ => false) 2 4 rfl (fun t ht => rfl) (by decide),
    rfl, rfl,
    connection_lifecycle.2 (fun t => decide (3 ≤ t)) (fun _ => true)
      (fun t => decide (t = 0)) 6 [Ev.processClient] 1 rfl 3 rfl
      (by decide) (by decide)⟩

/-- Witness for C9: one command line, one blank read, one empty (EOF) read. -/
theorem console_dispatches_nonempty_lines_witness :
    setup_console ["stop\n", "\n", ""]
      = [⟨CommandSender.console, "stop\n"⟩, ⟨CommandSender.console, "\n"⟩] ∧
    ⟨CommandSender.console, "stop\n"⟩ ∈ setup_console ["stop\n", "\n", ""] ∧
    (⟨CommandSender.console, "stop\n"⟩ : Dispatch).sender
      = CommandSender.console :=
  ⟨by decide, by decide,
    (console_dispatches_nonempty_lines ["stop\n", "\n", ""]).2.1
      ⟨CommandSender.console, "stop\n"⟩ (by decide)⟩

/-- C8 (divergence witness): the unix signal task awaits an interrupt first,
so a hangup alone or a terminate alone never reaches `handle_interrupt` —
the task stays blocked (`none`) and no status-0 exit happens, while an
interrupt alone does exit with status 0. -/
theorem sighandler_requires_interrupt_first :
    setup_sighandler [Sig.hangup] = none ∧
    setup_sighandler [Sig.terminate] = none ∧
    setup_sighandler [Sig.hangup, Sig.terminate] = none ∧
    setup_sighandler [Sig.interrupt] = some 0 ∧
    (∀ sigs, setup_sighandler sigs = some 0 ↔ Sig.interrupt ∈ sigs) := by
  refine ⟨rfl, rfl, rfl, rfl, fun sigs => ?_⟩
  induction sigs with
  | nil => simp [setup_sighandler, recvSignal]
  | cons s rest ih =>
    by_cases h : s = Sig.interrupt
    · simp [setup_sighandler, recvSignal, h]
    · have hne : Sig.interrupt ≠ s := fun hs => h hs.symm
      simp only [setup_sighandler, recvSignal, if_neg h, List.mem_cons, hne,
        false_or] at ih ⊢
      exact ih

end Pumpkin
